import Mathlib

/-!
Verification of the foundry test-runner specification against the source.

The visible source slice consists of `src/forge/src/lib.rs` (the
`TestOptions` configuration and its `fuzzer` constructor),
`src/cli/src/cmd/forge/verify/mod.rs` (the `VerificationProviderType`
enum with its `FromStr`/`Display` implementations) and
`src/cli/src/cast.rs` (base detection and integer formatting helpers).
Those parts are embedded directly from the source.  The fuzz/invariant
executors, the shrinker, the classifier and the multi-contract runner
live in modules (`runner.rs`, `multi_runner.rs`, ...) that are declared
by `lib.rs` but whose code is not part of the visible slice; they are
modelled from the specification where a claim needs them, and each such
definition says so in its doc comment.
-/

namespace Forge

/-- Big-endian byte decomposition of a 256-bit unsigned integer, as
performed by `U256::to_big_endian` into a `[u8; 32]` buffer: byte `i`
(from the most significant end) is `n / 256 ^ (31 - i) % 256`. -/
def toBigEndian (n : Nat) : List Nat :=
  (List.range 32).map (fun i => n / 256 ^ (31 - i) % 256)

/-- The random number generator carried by a proptest `TestRunner`:
either deterministically seeded from 32 bytes with the ChaCha algorithm
(`TestRng::from_seed(RngAlgorithm::ChaCha, &bytes)`), or built from
fresh operating-system entropy (`TestRunner::new`).  The entropy source
is modelled as an explicit `Nat` drawn outside the program. -/
inductive TestRng where
  | chaChaSeeded (seedBytes : List Nat)
  | fromEntropy (e : Nat)
deriving DecidableEq, Repr

/-- The slice of `proptest::test_runner::Config` that
`TestOptions::fuzzer` sets explicitly; the remaining fields are taken
from `Config::default()` and never inspected by the code under study. -/
structure ProptestConfig where
  failure_persistence : Option Unit
  cases : Nat
  max_local_rejects : Nat
  max_global_rejects : Nat
deriving DecidableEq, Repr

/-- A proptest `TestRunner` as far as the code under study constructs
it: a configuration plus a random number generator. -/
structure TestRunner where
  config : ProptestConfig
  rng : TestRng
deriving DecidableEq, Repr

/-- `TestOptions` from `src/forge/src/lib.rs`: metadata on how to run
fuzz and invariant tests.  `fuzz_seed` is an optional `U256`, modelled
as an optional natural number. -/
structure TestOptions where
  fuzz_runs : Nat
  fuzz_max_local_rejects : Nat
  fuzz_max_global_rejects : Nat
  fuzz_seed : Option Nat
  invariant_runs : Nat
  invariant_depth : Nat
  invariant_fail_on_revert : Bool
  invariant_call_override : Bool
deriving DecidableEq, Repr

/-- The value produced by the derived `Default` implementation on
`TestOptions` (`#[derive(..., Default)]`): every numeric field is zero,
the seed is `None`, the flags are `false`. -/
def TestOptions.default : TestOptions :=
  ⟨0, 0, 0, none, 0, 0, false, false⟩

/-- `TestOptions::fuzzer` from `src/forge/src/lib.rs`.  It builds a
proptest configuration from the fuzz fields, then either seeds the
runner deterministically from the big-endian bytes of `fuzz_seed`
(`TestRunner::new_with_rng`) or lets proptest draw fresh entropy
(`TestRunner::new`); the entropy consumed in the second branch is an
explicit parameter of the model. -/
def TestOptions.fuzzer (o : TestOptions) (entropy : Nat) : TestRunner :=
  let cfg : ProptestConfig :=
    ⟨none, o.fuzz_runs, o.fuzz_max_local_rejects, o.fuzz_max_global_rejects⟩
  match o.fuzz_seed with
  | some fuzz_seed => ⟨cfg, TestRng.chaChaSeeded (toBigEndian fuzz_seed)⟩
  | none => ⟨cfg, TestRng.fromEntropy entropy⟩

end Forge

namespace Verify

/-- `VerificationProviderType` from
`src/cli/src/cmd/forge/verify/mod.rs`. -/
inductive VerificationProviderType where
  | Etherscan
  | Sourcify
deriving DecidableEq, Repr

/-- `FromStr for VerificationProviderType`: `"e"` and `"etherscan"`
parse to `Etherscan`, `"s"` and `"sourcify"` parse to `Sourcify`, and
every other string is rejected with an `Unknown field` error. -/
def VerificationProviderType.from_str (s : String) :
    Except String VerificationProviderType :=
  if s = "e" ∨ s = "etherscan" then Except.ok VerificationProviderType.Etherscan
  else if s = "s" ∨ s = "sourcify" then Except.ok VerificationProviderType.Sourcify
  else Except.error ("Unknown field: " ++ s)

/-- `Display for VerificationProviderType`: the string written to the
formatter for each variant. -/
def VerificationProviderType.display : VerificationProviderType → String
  | VerificationProviderType.Etherscan => "etherscan"
  | VerificationProviderType.Sourcify => "sourcify"

end Verify

namespace CastCli

/-- A fallible computation in the cast command-line helpers: `ok` models
`Ok`, `err` models an `eyre` error bubbled up with `?`/`bail!`, and
`panicked` models a panic raised by `expect`. -/
inductive CastResult (α : Type) where
  | ok (a : α)
  | err (msg : String)
  | panicked (msg : String)
deriving DecidableEq, Repr

/-- Value of one character as a digit, accepting `0-9`, `a-f` and
`A-F`, as the underlying big-integer parser does. -/
def digitVal (c : Char) : Option Nat :=
  if '0' ≤ c ∧ c ≤ '9' then some (c.toNat - '0'.toNat)
  else if 'a' ≤ c ∧ c ≤ 'f' then some (c.toNat - 'a'.toNat + 10)
  else if 'A' ≤ c ∧ c ≤ 'F' then some (c.toNat - 'A'.toNat + 10)
  else none

/-- Digit-list accumulator for `from_str_radix`: every character must
be a digit below the radix, and the running value must stay below
`2 ^ 256` (a 256-bit overflow is a parse error). -/
def parseDigits (radix : Nat) : List Char → Nat → Option Nat
  | [], acc => some acc
  | c :: rest, acc =>
    match digitVal c with
    | some d =>
      if d < radix then
        if acc * radix + d < 2 ^ 256 then parseDigits radix rest (acc * radix + d)
        else none
      else none
    | none => none

/-- `U256::from_str_radix(value, radix)` of the external big-integer
library, as used by `det_base_in`: the string parses iff it is
non-empty, every character is a digit of the radix, and the value fits
in 256 bits; `none` models the `Err` case. -/
def from_str_radix (value : String) (radix : Nat) : Option Nat :=
  if value.isEmpty then none else parseDigits radix value.toList 0

/-- `value.starts_with("0x")`: the value string begins with the
characters `0` and `x`. -/
def startsWith0x (value : String) : Bool :=
  match value.toList with
  | '0' :: 'x' :: _ => true
  | _ => false

/-- `det_base_in` from `src/cli/src/cast.rs`: determine the input base
from an explicit `--base-in` argument or by autodetection on the value
string.  The `expect` call on the base-16 reparse is modelled by the
`panicked` outcome. -/
def det_base_in (value : String) (base_in : Option String) : CastResult Nat :=
  match base_in with
  | some base_in =>
    if base_in = "10" ∨ base_in = "dec" then CastResult.ok 10
    else if base_in = "16" ∨ base_in = "hex" then CastResult.ok 16
    else CastResult.err ("Unknown input base: " ++ base_in)
  | none =>
    if startsWith0x value then CastResult.ok 16
    else
      match from_str_radix value 10 with
      | some _ => CastResult.err "Could not autodetect input base: input could be decimal or hexadecimal. Please prepend with 0x if the input is hexadecimal, or specify a --base-in parameter."
      | none =>
        match from_str_radix value 16 with
        | some _ => CastResult.ok 16
        | none => CastResult.panicked "Could not autodetect input base."

/-- `format_uint` from `src/cli/src/cast.rs`: render a 256-bit value in
the output base, with an `Unknown output base` error on any base other
than 10 or 16. -/
def format_uint (val : Nat) (base_out : Nat) : Except String String :=
  match base_out with
  | 10 => Except.ok (Nat.repr val)
  | 16 => Except.ok ("0x" ++ String.mk (Nat.toDigits 16 val))
  | _ => Except.error ("Unknown output base: " ++ Nat.repr base_out)

end CastCli

namespace Runner

/-- Modelled from the spec (result model, `result.rs` not under
`src/`): the reasons a test can fail — the three logical failure
reasons plus rejection-budget exhaustion, which the spec requires to be
a Failure-equivalent verdict distinct from a logical assertion
failure. -/
inductive FailReason where
  | assertionFailure
  | revertFailure
  | invariantViolation
  | rejectionExhausted
deriving DecidableEq, Repr

/-- Modelled from the spec (result model): the final verdict of one
test. -/
inductive Verdict where
  | success
  | failure (reason : FailReason)
  | skipped (cause : String)
deriving DecidableEq, Repr

/-- Modelled from the spec (§3 TrialOutcome): the outcome of a single
trial — one call for Fuzz, one full sequence for Invariant. -/
inductive TrialOutcome where
  | pass
  | fail (reason : FailReason)
  | rejected
deriving DecidableEq, Repr

/-- Modelled from the spec (§4.2/§4.3, the fuzz executor of
`runner.rs`, not under `src/`): the trial loop of the fuzz executor.
`casesLeft` successful trials remain to be run; a rejected trial (a
failed `assume` precondition) consumes the rejection budget
`rejectsLeft` instead of the case count, and exhausting it aborts the
test with the rejection-exhausted verdict rather than looping
forever. -/
def fuzzLoop (trial : Nat → TrialOutcome) (casesLeft rejectsLeft idx : Nat) :
    Verdict :=
  if h : casesLeft = 0 then Verdict.success
  else
    match trial idx with
    | TrialOutcome.pass => fuzzLoop trial (casesLeft - 1) rejectsLeft (idx + 1)
    | TrialOutcome.fail r => Verdict.failure r
    | TrialOutcome.rejected =>
      if h2 : rejectsLeft = 0 then Verdict.failure FailReason.rejectionExhausted
      else fuzzLoop trial casesLeft (rejectsLeft - 1) (idx + 1)
termination_by casesLeft + rejectsLeft
decreasing_by all_goals omega

/-- Modelled from the spec (§4.6, the contract runner dispatch of
`runner.rs`, not under `src/`): the contract runner executes a unit
test through the fuzz path with run count 1 and no generated
arguments — the trial at every index executes the test call on the
empty argument list. -/
def runUnitDispatch (exec : List Nat → TrialOutcome) (maxRejects : Nat) :
    Verdict :=
  fuzzLoop (fun _ => exec []) 1 maxRejects 0

/-- Modelled from the spec (§4.6/§8): the spec-level semantics of a
plain unit test — execute the call once on the contract fixture; a
passing call is a success, a failing call is a failure with the same
reason, and a rejected precondition leaves no valid input at all, which
the error taxonomy reports as rejection exhaustion. -/
def unitVerdictSpec (exec : List Nat → TrialOutcome) : Verdict :=
  match exec [] with
  | TrialOutcome.pass => Verdict.success
  | TrialOutcome.fail r => Verdict.failure r
  | TrialOutcome.rejected => Verdict.failure FailReason.rejectionExhausted

/-- Modelled from the spec (§4.4, the shrinker of `runner.rs`, not
under `src/`): one shrinking pass — try the structural reductions of
the current input in order and keep the first one on which re-execution
still fails. -/
def shrinkStep {α : Type} (reduce : α → List α) (fails : α → Bool) (x : α) :
    Option α :=
  (reduce x).find? fails

/-- Modelled from the spec (§4.4): delta-debugging style reduction with
a bounded attempt budget.  Each round keeps the first still-failing
reduction of the current input; when no reduction still fails, or the
budget is exhausted, the current input is returned unmodified. -/
def shrink {α : Type} (reduce : α → List α) (fails : α → Bool) :
    Nat → α → α
  | 0, x => x
  | budget + 1, x =>
    match shrinkStep reduce fails x with
    | some y => shrink reduce fails budget y
    | none => x

/-- Modelled from the spec (§4.5, the invariant executor of
`runner.rs`, not under `src/`): the candidate reductions of a failing
call sequence — drop one step, trying the last step first and then
interior steps.  Re-running a candidate happens from a fresh backend
snapshot, so the violation check is a function of the candidate
sequence alone. -/
def dropCandidates {α : Type} (s : List α) : List (List α) :=
  ((List.range s.length).reverse).map (fun i => s.eraseIdx i)

/-- Modelled from the spec (§4.7, the multi-contract runner of
`multi_runner.rs`, not under `src/`): apply the test filter before any
execution, run only the surviving tests, and omit from the suite report
any contract left with zero surviving tests.  `execute` is the
per-test execution (producing the test's verdict and consuming backend
resources); it is only ever applied to tests the filter keeps. -/
def runSuite (F : String → String → Bool)
    (execute : String → String → Verdict) :
    List (String × List String) → List (String × List (String × Verdict))
  | [] => []
  | (c, ts) :: rest =>
    let surviving := ts.filter (fun t => F c t)
    if surviving.isEmpty then runSuite F execute rest
    else (c, surviving.map (fun t => (t, execute c t))) :: runSuite F execute rest

/-- Modelled from the spec (§4.1, the test classifier, not under
`src/`): the signature information the classifier inspects for one
exposed contract function. -/
structure FnSig where
  name : String
  paramCount : Nat
deriving DecidableEq, Repr

/-- Modelled from the spec (§3): the closed set of test kinds. -/
inductive TestKind where
  | unitTest
  | fuzzTest
  | invariantTest
deriving DecidableEq, Repr

/-- Modelled from the spec (§4.1): one classification rule — a
predicate on the function signature (name prefix and parameter shape)
together with the test kind it assigns. -/
structure ClassRule where
  accepts : FnSig → Bool
  kind : TestKind

/-- Modelled from the spec (§4.1): classify one function against the
rule set.  No matching rule means the function is ignored; exactly one
matching rule assigns its kind; an ambiguous dual-match is rejected
with a classification error surfaced to the caller instead of silently
defaulting to a kind. -/
def classify (rules : List ClassRule) (f : FnSig) :
    Except String (Option TestKind) :=
  match rules.filter (fun r => r.accepts f) with
  | [] => Except.ok none
  | [r] => Except.ok (some r.kind)
  | _ => Except.error ("ambiguous classification for " ++ f.name)

/-- Modelled from the spec (§7): the suite entry recorded for one
contract function — ignored (no TestCase), executed with a verdict, or
skipped with the classification error as its cause. -/
inductive SuiteEntry where
  | ignored
  | ran (kind : TestKind) (v : Verdict)
  | skippedWithCause (cause : String)
deriving DecidableEq, Repr

/-- Modelled from the spec (§4.1/§7): the entry one function
contributes to the suite — a classification error is fatal for that
single test only, which is reported as skipped with its cause. -/
def entryFor (rules : List ClassRule) (execute : FnSig → TestKind → Verdict)
    (f : FnSig) : SuiteEntry :=
  match classify rules f with
  | Except.error cause => SuiteEntry.skippedWithCause cause
  | Except.ok none => SuiteEntry.ignored
  | Except.ok (some k) => SuiteEntry.ran k (execute f k)

/-- Modelled from the spec (§4.1/§7): classify and run every exposed
function of a contract; no classification error aborts the rest of the
suite. -/
def classifySuite (rules : List ClassRule)
    (execute : FnSig → TestKind → Verdict) (fs : List FnSig) :
    List (String × SuiteEntry) :=
  fs.map (fun f => (f.name, entryFor rules execute f))

end Runner

namespace Forge

/-- Claim C1: with a fixed seed S in the configuration, two calls to
`TestOptions::fuzzer` construct identical test runners — in particular
identically seeded ChaCha random number generators derived from the
big-endian bytes of S — regardless of the ambient entropy, so any
deterministic fuzz run over the resulting runner (argument stream and
final verdict alike) is identical between the two calls. -/
theorem fuzzer_seeded_deterministic (o : TestOptions) (e1 e2 : Nat) (s : Nat)
    (h : o.fuzz_seed = some s) :
    o.fuzzer e1 = o.fuzzer e2 ∧
    (o.fuzzer e1).rng = TestRng.chaChaSeeded (toBigEndian s) ∧
    (∀ fuzzRun : TestRunner → List Nat × Bool,
      fuzzRun (o.fuzzer e1) = fuzzRun (o.fuzzer e2)) := by
  have h1 : o.fuzzer e1 = o.fuzzer e2 := by
    simp [TestOptions.fuzzer, h]
  refine ⟨h1, ?_, fun fuzzRun => by rw [h1]⟩
  simp [TestOptions.fuzzer, h]

/-- Witness for claim C1 at a concrete configuration with seed 5. -/
theorem fuzzer_seeded_deterministic_witness :
    (TestOptions.mk 256 1024 65536 (some 5) 0 0 false false).fuzzer 0 =
    (TestOptions.mk 256 1024 65536 (some 5) 0 0 false false).fuzzer 1 :=
  (fuzzer_seeded_deterministic
    (TestOptions.mk 256 1024 65536 (some 5) 0 0 false false) 0 1 5 rfl).1

/-- Claim C2 counterexample: the derived `Default` for `TestOptions`
has `fuzz_runs = 0`, so the default value violates "run count > 0",
and the fuzzer built from it is configured with zero cases. -/
theorem default_fuzz_runs_zero :
    ¬ 0 < TestOptions.default.fuzz_runs ∧
    (TestOptions.default.fuzzer 0).config.cases = 0 :=
  ⟨by decide, rfl⟩

/-- Claim C2 (amended): the code places no invariant on `fuzz_runs`;
`TestOptions::fuzzer` forwards `fuzz_runs` unchanged as the proptest
case count, and the value produced by the derived `Default` has
`fuzz_runs = 0`, not a positive run count. -/
theorem fuzzer_cases_passthrough :
    (∀ (o : TestOptions) (e : Nat), (o.fuzzer e).config.cases = o.fuzz_runs) ∧
    TestOptions.default.fuzz_runs = 0 := by
  refine ⟨fun o e => ?_, rfl⟩
  cases h : o.fuzz_seed <;> simp [TestOptions.fuzzer, h]

end Forge

namespace Verify

/-- Claim C9: `from_str` inverts `Display` on both variants of
`VerificationProviderType`, and it succeeds on exactly the four strings
`"e"`, `"etherscan"`, `"s"`, `"sourcify"`, returning an error on every
other string. -/
theorem from_str_display_roundtrip :
    (∀ v, VerificationProviderType.from_str v.display = Except.ok v) ∧
    (∀ s : String,
      (∃ v, VerificationProviderType.from_str s = Except.ok v) ↔
        s = "e" ∨ s = "etherscan" ∨ s = "s" ∨ s = "sourcify") := by
  constructor
  · intro v
    cases v <;>
      simp [VerificationProviderType.from_str, VerificationProviderType.display]
  · intro s
    constructor
    · intro hv
      obtain ⟨v, hv⟩ := hv
      by_cases h1 : s = "e" ∨ s = "etherscan"
      · tauto
      · by_cases h2 : s = "s" ∨ s = "sourcify"
        · tauto
        · simp [VerificationProviderType.from_str, h1, h2] at hv
    · intro h
      rcases h with h | h | h | h <;> subst h
      · exact ⟨VerificationProviderType.Etherscan,
          by simp [VerificationProviderType.from_str]⟩
      · exact ⟨VerificationProviderType.Etherscan,
          by simp [VerificationProviderType.from_str]⟩
      · exact ⟨VerificationProviderType.Sourcify,
          by simp [VerificationProviderType.from_str]⟩
      · exact ⟨VerificationProviderType.Sourcify,
          by simp [VerificationProviderType.from_str]⟩

/-- Witness for claim C9: round trip on the `Sourcify` variant and
rejection of the concrete string `"zzz"`. -/
theorem from_str_display_roundtrip_witness :
    VerificationProviderType.from_str
      (VerificationProviderType.display VerificationProviderType.Sourcify) =
      Except.ok VerificationProviderType.Sourcify ∧
    ¬ ∃ v, VerificationProviderType.from_str "zzz" = Except.ok v := by
  constructor
  · exact from_str_display_roundtrip.1 VerificationProviderType.Sourcify
  · intro hv
    have h := (from_str_display_roundtrip.2 "zzz").mp hv
    simp at h

end Verify

namespace CastCli

/-- Claim C10: with `base_in` absent and a value not starting with
`0x`, `det_base_in` errors when the value parses in base 10, returns 16
when it parses in base 16 but not in base 10, and panics (through
`expect`) when it parses in neither; with `base_in` present it returns
10 exactly for `"10"`/`"dec"` and 16 exactly for `"16"`/`"hex"` and
errors otherwise; hence every successful result is 10 or 16, on which
`format_uint` never reaches its unknown-base error branch. -/
theorem det_base_in_spec (value : String) (b : String) :
    (¬ startsWith0x value → (from_str_radix value 10).isSome →
      ∃ m, det_base_in value none = CastResult.err m) ∧
    (¬ startsWith0x value → from_str_radix value 10 = none →
      (from_str_radix value 16).isSome →
      det_base_in value none = CastResult.ok 16) ∧
    (¬ startsWith0x value → from_str_radix value 10 = none →
      from_str_radix value 16 = none →
      ∃ m, det_base_in value none = CastResult.panicked m) ∧
    (det_base_in value (some b) = CastResult.ok 10 ↔ b = "10" ∨ b = "dec") ∧
    (det_base_in value (some b) = CastResult.ok 16 ↔ b = "16" ∨ b = "hex") ∧
    (∀ base_in r, det_base_in value base_in = CastResult.ok r →
      (r = 10 ∨ r = 16) ∧ ∀ v, (format_uint v r).isOk = true) := by
  refine ⟨?_, ?_, ?_, ?_, ?_, ?_⟩
  · intro hx h10
    obtain ⟨n, hn⟩ := Option.isSome_iff_exists.mp h10
    have he : det_base_in value none = CastResult.err "Could not autodetect input base: input could be decimal or hexadecimal. Please prepend with 0x if the input is hexadecimal, or specify a --base-in parameter." := by
      simp [det_base_in, hx, hn]
    exact ⟨_, he⟩
  · intro hx h10 h16
    obtain ⟨n, hn⟩ := Option.isSome_iff_exists.mp h16
    simp [det_base_in, hx, h10, hn]
  · intro hx h10 h16
    have he : det_base_in value none = CastResult.panicked "Could not autodetect input base." := by
      simp [det_base_in, hx, h10, h16]
    exact ⟨_, he⟩
  · constructor
    · intro h
      by_cases h1 : b = "10" ∨ b = "dec"
      · exact h1
      · by_cases h2 : b = "16" ∨ b = "hex" <;> simp [det_base_in, h1, h2] at h
    · intro h1
      simp [det_base_in, h1]
  · constructor
    · intro h
      by_cases h1 : b = "10" ∨ b = "dec"
      · simp [det_base_in, h1] at h
      · by_cases h2 : b = "16" ∨ b = "hex"
        · exact h2
        · simp [det_base_in, h1, h2] at h
    · intro h2
      have h1 : ¬ (b = "10" ∨ b = "dec") := by
        rcases h2 with h2 | h2 <;> subst h2 <;> simp
      simp [det_base_in, h1, h2]
  · intro base_in r hr
    have hbase : r = 10 ∨ r = 16 := by
      cases base_in with
      | some b2 =>
        by_cases h1 : b2 = "10" ∨ b2 = "dec"
        · simp [det_base_in, h1] at hr
          omega
        · by_cases h2 : b2 = "16" ∨ b2 = "hex" <;>
            simp [det_base_in, h1, h2] at hr
          omega
      | none =>
        by_cases hx : startsWith0x value
        · simp [det_base_in, hx] at hr
          omega
        · cases h10 : from_str_radix value 10 with
          | some n => simp [det_base_in, hx, h10] at hr
          | none =>
            cases h16 : from_str_radix value 16 with
            | some n =>
              simp [det_base_in, hx, h10, h16] at hr
              omega
            | none => simp [det_base_in, hx, h10, h16] at hr
    refine ⟨hbase, fun v => ?_⟩
    rcases hbase with h | h <;> subst h <;> rfl

/-- Witness for claim C10: on the concrete value `"ff"` with no
explicit base, autodetection yields base 16; with the explicit base
`"dec"` it yields base 10. -/
theorem det_base_in_spec_witness :
    det_base_in "ff" none = CastResult.ok 16 ∧
    det_base_in "ff" (some "dec") = CastResult.ok 10 := by
  constructor
  · exact (det_base_in_spec "ff" "dec").2.1 (by decide) (by decide) (by decide)
  · exact ((det_base_in_spec "ff" "dec").2.2.2.1).mpr (Or.inr rfl)

end CastCli

namespace Runner

theorem fuzzLoop_all_rejected (trial : Nat → TrialOutcome)
    (h : ∀ i, trial i = TrialOutcome.rejected) :
    ∀ rejectsLeft casesLeft idx, casesLeft ≠ 0 →
      fuzzLoop trial casesLeft rejectsLeft idx =
        Verdict.failure FailReason.rejectionExhausted := by
  intro rejectsLeft
  induction rejectsLeft with
  | zero =>
    intro casesLeft idx hc
    rw [fuzzLoop]
    simp [hc, h idx]
  | succ n ih =>
    intro casesLeft idx hc
    rw [fuzzLoop]
    simp [hc, h idx]
    exact ih casesLeft (idx + 1) hc

/-- Claim C3: a fuzz test whose precondition fails on every generated
input terminates (the loop below is a total function, so it cannot hang)
with the rejection-exhausted verdict once the rejection budget is
consumed; it never reports success, and the rejection-exhausted verdict
is distinct from a logical assertion failure. -/
theorem fuzz_always_rejected_exhausts (trial : Nat → TrialOutcome)
    (casesLeft rejectsLeft idx : Nat)
    (h : ∀ i, trial i = TrialOutcome.rejected) (hc : 0 < casesLeft) :
    fuzzLoop trial casesLeft rejectsLeft idx =
      Verdict.failure FailReason.rejectionExhausted ∧
    fuzzLoop trial casesLeft rejectsLeft idx ≠ Verdict.success ∧
    fuzzLoop trial casesLeft rejectsLeft idx ≠
      Verdict.failure FailReason.assertionFailure := by
  have he := fuzzLoop_all_rejected trial h rejectsLeft casesLeft idx
    (Nat.pos_iff_ne_zero.mp hc)
  refine ⟨he, ?_, ?_⟩ <;> rw [he] <;> simp

/-- Witness for claim C3: a trial function that always rejects, run
with 3 cases and a rejection budget of 2, yields the
rejection-exhausted failure. -/
theorem fuzz_always_rejected_exhausts_witness :
    fuzzLoop (fun _ => TrialOutcome.rejected) 3 2 0 =
      Verdict.failure FailReason.rejectionExhausted :=
  (fuzz_always_rejected_exhausts (fun _ => TrialOutcome.rejected) 3 2 0
    (fun _ => rfl) (by decide)).1

/-- Claim C5: dispatching a unit test through the fuzz path with run
count 1 and zero generated parameters produces exactly the verdict of
executing it as a plain unit test, for every behaviour of the backend
call and every rejection budget. -/
theorem unit_is_fuzz_run_count_one (exec : List Nat → TrialOutcome)
    (maxRejects : Nat) :
    runUnitDispatch exec maxRejects = unitVerdictSpec exec := by
  unfold runUnitDispatch unitVerdictSpec
  cases hexec : exec [] with
  | pass =>
    rw [fuzzLoop]
    simp [hexec]
    rw [fuzzLoop]
    simp
  | fail r =>
    rw [fuzzLoop]
    simp [hexec]
  | rejected =>
    exact fuzzLoop_all_rejected (fun _ => TrialOutcome.rejected) (fun _ => rfl)
      maxRejects 1 0 (by omega)

theorem shrink_preserves (α : Type) (reduce : α → List α) (fails : α → Bool)
    (size : α → Nat) (hred : ∀ x y, y ∈ reduce x → size y ≤ size x) :
    ∀ (budget : Nat) (x0 : α), fails x0 = true →
      size (shrink reduce fails budget x0) ≤ size x0 ∧
      fails (shrink reduce fails budget x0) = true := by
  intro budget
  induction budget with
  | zero =>
    intro x0 hfail
    exact ⟨Nat.le_refl _, hfail⟩
  | succ n ih =>
    intro x0 hfail
    cases hs : shrinkStep reduce fails x0 with
    | none =>
      constructor <;> simp [shrink, hs, hfail]
    | some y =>
      have hy : y ∈ reduce x0 := List.mem_of_find?_eq_some hs
      have hfy : fails y = true := List.find?_some hs
      have hrec := ih y hfy
      have hshr : shrink reduce fails (n + 1) x0 = shrink reduce fails n y := by
        simp [shrink, hs]
      rw [hshr]
      exact ⟨Nat.le_trans hrec.1 (hred x0 y hy), hrec.2⟩

theorem shrink_id_of_none (α : Type) (reduce : α → List α) (fails : α → Bool)
    (x0 : α) (hnone : shrinkStep reduce fails x0 = none) :
    ∀ budget, shrink reduce fails budget x0 = x0 := by
  intro budget
  cases budget with
  | zero => rfl
  | succ n => simp [shrink, hnone]

/-- Claim C4: for every failing input, every size measure that the
structural reductions never increase, and every attempt budget, the
counterexample returned by the shrinker is no larger than the original
failing input, re-execution on it still fails, and when no reduction
succeeds the original failing input is returned unmodified — never
dropped. -/
theorem shrinker_sound (α : Type) (reduce : α → List α) (fails : α → Bool)
    (size : α → Nat) (budget : Nat) (x0 : α)
    (hred : ∀ x y, y ∈ reduce x → size y ≤ size x) (hfail : fails x0 = true) :
    size (shrink reduce fails budget x0) ≤ size x0 ∧
    fails (shrink reduce fails budget x0) = true ∧
    (shrinkStep reduce fails x0 = none → shrink reduce fails budget x0 = x0) :=
  ⟨(shrink_preserves α reduce fails size hred budget x0 hfail).1,
   (shrink_preserves α reduce fails size hred budget x0 hfail).2,
   fun hnone => shrink_id_of_none α reduce fails x0 hnone budget⟩

/-- Witness for claim C4: shrinking the failing input 5 with the
reduction that decrements and the failure predicate `2 ≤ n` yields a
still-failing value no larger than 5 (concretely 3 after a budget of
two attempts). -/
theorem shrinker_sound_witness :
    shrink (fun n => if n = 0 then [] else [n - 1])
        (fun n => decide (2 ≤ n)) 2 5 ≤ 5 ∧
    decide (2 ≤ shrink (fun n => if n = 0 then [] else [n - 1])
        (fun n => decide (2 ≤ n)) 2 5) = true ∧
    shrink (fun n => if n = 0 then [] else [n - 1])
        (fun n => decide (2 ≤ n)) 2 5 = 3 := by
  have h := shrinker_sound Nat (fun n => if n = 0 then [] else [n - 1])
    (fun n => decide (2 ≤ n)) (fun n => n) 2 5
    (by
      intro x y hy
      by_cases hx : x = 0
      · simp [hx] at hy
      · simp [hx] at hy
        subst hy
        show x - 1 ≤ x
        omega)
    (by decide)
  exact ⟨h.1, h.2.1, by decide⟩

theorem dropCandidates_length_le {α : Type} (s y : List α)
    (hy : y ∈ dropCandidates s) : y.length ≤ s.length := by
  unfold dropCandidates at hy
  obtain ⟨i, hi, rfl⟩ := List.mem_map.mp hy
  have hilt : i < s.length := List.mem_range.mp (List.mem_reverse.mp hi)
  have := List.length_eraseIdx_add_one hilt
  omega

/-- Claim C7: shrinking a failing call sequence by dropping steps (end
first, then interior) and keeping only candidates whose re-execution
from a fresh snapshot still violates the invariant yields a reported
counterexample that is no longer than the original and, replayed from a
fresh baseline snapshot, still violates the invariant; the violation
check being a function of the sequence, the replay is deterministic. -/
theorem invariant_counterexample_replays {α : Type}
    (violates : List α → Bool) (budget : Nat) (s0 : List α)
    (hfail : violates s0 = true) :
    violates (shrink dropCandidates violates budget s0) = true ∧
    (shrink dropCandidates violates budget s0).length ≤ s0.length ∧
    (shrinkStep dropCandidates violates s0 = none →
      shrink dropCandidates violates budget s0 = s0) := by
  have h := shrink_preserves (List α) dropCandidates violates List.length
    (fun x y hy => dropCandidates_length_le x y hy) budget s0 hfail
  exact ⟨h.2, h.1,
    fun hnone => shrink_id_of_none (List α) dropCandidates violates s0 hnone budget⟩

/-- Witness for claim C7: the failing sequence `[1, 7, 2]` under the
invariant violation "the sequence contains a call to step 7" shrinks to
a sequence that still violates the invariant and is no longer than the
original — concretely the single-step sequence `[7]`. -/
theorem invariant_counterexample_replays_witness :
    (fun s => s.contains 7) (shrink dropCandidates (fun s => s.contains 7) 5
      [1, 7, 2]) = true ∧
    (shrink dropCandidates (fun s : List Nat => s.contains 7) 5
      [1, 7, 2]).length ≤ 3 ∧
    shrink dropCandidates (fun s : List Nat => s.contains 7) 5 [1, 7, 2] = [7] := by
  have h := invariant_counterexample_replays
    (fun s : List Nat => s.contains 7) 5 [1, 7, 2] (by decide)
  exact ⟨h.1, h.2.1, by decide⟩

theorem runSuite_entries (F : String → String → Bool)
    (execute : String → String → Verdict)
    (contracts : List (String × List String)) :
    ∀ c rs, (c, rs) ∈ runSuite F execute contracts →
      rs ≠ [] ∧ ∀ p ∈ rs, F c p.1 = true ∧ p.2 = execute c p.1 := by
  induction contracts with
  | nil => intro c rs h; cases h
  | cons hd rest ih =>
    obtain ⟨c0, ts⟩ := hd
    intro c rs h
    by_cases hs : (ts.filter (fun t => F c0 t)).isEmpty
    · rw [runSuite] at h
      simp only [hs, if_pos] at h
      exact ih c rs h
    · rw [runSuite] at h
      simp only [hs, if_neg, Bool.not_eq_true] at h
      rcases List.mem_cons.mp h with heq | hmem
      · obtain ⟨hc, hrs⟩ := Prod.mk.injEq .. ▸ heq
        injection heq with hc hrs
        subst hc; subst hrs
        constructor
        · intro hnil
          rw [List.map_eq_nil_iff] at hnil
          rw [hnil] at hs
          simp at hs
        · intro p hp
          obtain ⟨t, ht, rfl⟩ := List.mem_map.mp hp
          exact ⟨(List.mem_filter.mp ht).2, rfl⟩
      · exact ih c rs hmem

theorem runSuite_complete (F : String → String → Bool)
    (execute : String → String → Verdict)
    (contracts : List (String × List String)) :
    ∀ c ts, (c, ts) ∈ contracts → ∀ t ∈ ts, F c t = true →
      ∃ rs, (c, rs) ∈ runSuite F execute contracts ∧
        (t, execute c t) ∈ rs := by
  induction contracts with
  | nil => intro c ts h; cases h
  | cons hd rest ih =>
    obtain ⟨c0, ts0⟩ := hd
    intro c ts hmem t ht hF
    rcases List.mem_cons.mp hmem with heq | htl
    · injection heq with hc hts
      subst hc; subst hts
      have htf : t ∈ ts.filter (fun u => F c u) :=
        List.mem_filter.mpr ⟨ht, hF⟩
      have hne : ¬ (ts.filter (fun u => F c u)).isEmpty := by
        intro hemp
        rw [List.isEmpty_iff] at hemp
        rw [hemp] at htf
        cases htf
      refine ⟨(ts.filter (fun u => F c u)).map (fun u => (u, execute c u)), ?_, ?_⟩
      · rw [runSuite]
        simp only [hne, if_neg]
        exact List.mem_cons_self _ _
      · exact List.mem_map.mpr ⟨t, htf, rfl⟩
    · obtain ⟨rs, hrs, hin⟩ := ih c ts htl t ht hF
      refine ⟨rs, ?_, hin⟩
      rw [runSuite]
      by_cases hs : (ts0.filter (fun u => F c0 u)).isEmpty
      · simp only [hs, if_pos]
        exact hrs
      · simp only [hs, if_neg]
        exact List.mem_cons_of_mem _ hrs

theorem runSuite_execute_congr (F : String → String → Bool)
    (execute1 execute2 : String → String → Verdict)
    (hagree : ∀ c t, F c t = true → execute1 c t = execute2 c t) :
    ∀ contracts, runSuite F execute1 contracts = runSuite F execute2 contracts := by
  intro contracts
  induction contracts with
  | nil => rfl
  | cons hd rest ih =>
    obtain ⟨c0, ts⟩ := hd
    rw [runSuite, runSuite]
    by_cases hs : (ts.filter (fun t => F c0 t)).isEmpty
    · simp only [hs, if_pos]
      exact ih
    · simp only [hs, if_neg]
      rw [ih]
      have hmap : List.map (fun t => (t, execute1 c0 t))
          (List.filter (fun t => F c0 t) ts) =
          List.map (fun t => (t, execute2 c0 t))
          (List.filter (fun t => F c0 t) ts) := by
        apply List.map_congr_left
        intro t ht
        rw [hagree c0 t (List.mem_filter.mp ht).2]
      rw [hmap]

theorem runSuite_sourced (F : String → String → Bool)
    (execute : String → String → Verdict)
    (contracts : List (String × List String)) :
    ∀ c rs, (c, rs) ∈ runSuite F execute contracts →
      ∃ ts, (c, ts) ∈ contracts ∧ ∃ t ∈ ts, F c t = true := by
  induction contracts with
  | nil => intro c rs h; cases h
  | cons hd rest ih =>
    obtain ⟨c0, ts0⟩ := hd
    intro c rs h
    by_cases hs : (ts0.filter (fun t => F c0 t)).isEmpty
    · rw [runSuite] at h
      simp only [hs, if_pos] at h
      obtain ⟨ts, hts, hex⟩ := ih c rs h
      exact ⟨ts, List.mem_cons_of_mem _ hts, hex⟩
    · rw [runSuite] at h
      simp only [hs, if_neg] at h
      rcases List.mem_cons.mp h with heq | hmem
      · injection heq with hc hrs
        subst hc
        have hne : ts0.filter (fun t => F c t) ≠ [] := by
          intro hemp
          rw [hemp] at hs
          simp at hs
        obtain ⟨t, ht⟩ := List.exists_mem_of_ne_nil _ hne
        obtain ⟨htm, htF⟩ := List.mem_filter.mp ht
        exact ⟨ts0, List.mem_cons_self _ _, t, htm, htF⟩
      · obtain ⟨ts, hts, hex⟩ := ih c rs hmem
        exact ⟨ts, List.mem_cons_of_mem _ hts, hex⟩

/-- Claim C6: the suite after filtering contains exactly the tests the
filter keeps — every reported entry is a filter-kept test of a listed
contract with its executed result, every filter-kept test of a listed
contract is reported, a contract appears only with a non-empty result
list justified by at least one surviving test (zero-survivor contracts
are omitted, never reported as an empty pass) — and the suite never
invokes execution on a filtered-out test: it is unchanged under any
replacement of the execution function that agrees on filter-kept
tests. -/
theorem suite_filter_exact (F : String → String → Bool)
    (execute : String → String → Verdict)
    (contracts : List (String × List String)) :
    (∀ c rs, (c, rs) ∈ runSuite F execute contracts →
      rs ≠ [] ∧
      (∃ ts, (c, ts) ∈ contracts ∧ ∃ t ∈ ts, F c t = true) ∧
      ∀ p ∈ rs, F c p.1 = true ∧ p.2 = execute c p.1) ∧
    (∀ c ts, (c, ts) ∈ contracts → ∀ t ∈ ts, F c t = true →
      ∃ rs, (c, rs) ∈ runSuite F execute contracts ∧
        (t, execute c t) ∈ rs) ∧
    (∀ execute2, (∀ c t, F c t = true → execute c t = execute2 c t) →
      runSuite F execute contracts = runSuite F execute2 contracts) := by
  refine ⟨fun c rs h => ?_, runSuite_complete F execute contracts,
    fun execute2 hagree =>
      runSuite_execute_congr F execute execute2 hagree contracts⟩
  have h1 := runSuite_entries F execute contracts c rs h
  exact ⟨h1.1, runSuite_sourced F execute contracts c rs h, h1.2⟩

/-- Witness for claim C6 on a concrete project: contract `A` with tests
`t1`, `t2` and contract `B` with test `t3`, under the filter keeping
only `t1` — test `t1` of contract `A` is reported with its executed
verdict, and contract `B` (zero surviving tests) is omitted from the
suite entirely. -/
theorem suite_filter_exact_witness :
    (∃ rs, ("A", rs) ∈ runSuite (fun _ t => decide (t = "t1"))
        (fun _ _ => Verdict.success) [("A", ["t1", "t2"]), ("B", ["t3"])] ∧
      ("t1", Verdict.success) ∈ rs) ∧
    runSuite (fun _ t => decide (t = "t1")) (fun _ _ => Verdict.success)
        [("A", ["t1", "t2"]), ("B", ["t3"])] =
      [("A", [("t1", Verdict.success)])] := by
  have h := (suite_filter_exact (fun _ t => decide (t = "t1"))
    (fun _ _ => Verdict.success) [("A", ["t1", "t2"]), ("B", ["t3"])]).2.1
    "A" ["t1", "t2"] (by simp) "t1" (by simp) (by decide)
  exact ⟨h, by decide⟩

/-- Claim C8: a function matched by more than one classification rule
is rejected by the classifier with a classification error surfaced to
the caller; in the suite that function alone is reported as skipped
with the error as its cause, while every function of the contract still
receives its own entry — the suite is not aborted. -/
theorem ambiguous_match_skipped_only (rules : List ClassRule)
    (execute : FnSig → TestKind → Verdict) (fs : List FnSig) (f : FnSig)
    (hamb : 2 ≤ (rules.filter (fun r => r.accepts f)).length) (hf : f ∈ fs) :
    (∃ cause, classify rules f = Except.error cause) ∧
    (∃ cause, (f.name, SuiteEntry.skippedWithCause cause) ∈
      classifySuite rules execute fs) ∧
    (classifySuite rules execute fs).length = fs.length ∧
    (∀ g ∈ fs, (g.name, entryFor rules execute g) ∈
      classifySuite rules execute fs) := by
  have hclass : ∃ cause, classify rules f = Except.error cause := by
    unfold classify
    cases hl : rules.filter (fun r => r.accepts f) with
    | nil =>
      rw [hl] at hamb
      simp at hamb
    | cons r1 tl =>
      cases tl with
      | nil =>
        rw [hl] at hamb
        simp at hamb
      | cons r2 tl2 => exact ⟨_, rfl⟩
  obtain ⟨cause, hc⟩ := hclass
  have hentry : entryFor rules execute f = SuiteEntry.skippedWithCause cause := by
    unfold entryFor
    rw [hc]
  refine ⟨⟨cause, hc⟩, ⟨cause, ?_⟩, ?_, fun g hg => ?_⟩
  · exact List.mem_map.mpr ⟨f, hf, by rw [hentry]⟩
  · simp [classifySuite]
  · exact List.mem_map.mpr ⟨g, hg, rfl⟩

/-- Witness for claim C8: two rules (parameterless functions, and
functions named `testFoo`) both match the function `testFoo()` — it is
skipped with a classification error — while `testBar()` (matched only
by the first rule) still runs as a unit test. -/
theorem ambiguous_match_skipped_only_witness :
    (∃ cause, ("testFoo", SuiteEntry.skippedWithCause cause) ∈
      classifySuite
        [ClassRule.mk (fun g => decide (g.paramCount = 0)) TestKind.unitTest,
         ClassRule.mk (fun g => decide (g.name = "testFoo")) TestKind.fuzzTest]
        (fun _ _ => Verdict.success)
        [FnSig.mk "testFoo" 0, FnSig.mk "testBar" 0]) ∧
    ("testBar", SuiteEntry.ran TestKind.unitTest Verdict.success) ∈
      classifySuite
        [ClassRule.mk (fun g => decide (g.paramCount = 0)) TestKind.unitTest,
         ClassRule.mk (fun g => decide (g.name = "testFoo")) TestKind.fuzzTest]
        (fun _ _ => Verdict.success)
        [FnSig.mk "testFoo" 0, FnSig.mk "testBar" 0] := by
  have h := ambiguous_match_skipped_only
    [ClassRule.mk (fun g => decide (g.paramCount = 0)) TestKind.unitTest,
     ClassRule.mk (fun g => decide (g.name = "testFoo")) TestKind.fuzzTest]
    (fun _ _ => Verdict.success)
    [FnSig.mk "testFoo" 0, FnSig.mk "testBar" 0]
    (FnSig.mk "testFoo" 0) (by decide) (by decide)
  refine ⟨h.2.1, ?_⟩
  have h4 := h.2.2.2 (FnSig.mk "testBar" 0) (by decide)
  have he : entryFor
      [ClassRule.mk (fun g => decide (g.paramCount = 0)) TestKind.unitTest,
       ClassRule.mk (fun g => decide (g.name = "testFoo")) TestKind.fuzzTest]
      (fun _ _ => Verdict.success) (FnSig.mk "testBar" 0) =
      SuiteEntry.ran TestKind.unitTest Verdict.success := by decide
  rw [he] at h4
  exact h4

end Runner
